import Mathlib

/-!
# Verification of the theme-manager-plus reconciliation engine

Shallow embedding, in Lean 4, of the configuration-apply engine of the
`theme-manager-plus` repository (Rust sources under `src/rust/src/`), together
with proofs settling the frozen claims C1..C10 about it.

Conventions of the embedding:

* Rust `String`s are Lean `String`s; character-level operations work on
  `String.data : List Char`. Rust `char::to_lowercase` is modelled by the
  per-character ASCII lowering `Char.toLower` (on the ASCII range the two
  agree exactly; the theme names this code manipulates are ASCII).
* Filesystem paths are lists of components (`FsPath := List String`);
  `p.join(name)` becomes `p ++ [name]` and `p.parent()` becomes `p.dropLast`.
* The filesystem is a finite association list from paths to nodes
  (`Fs := List (FsPath × FsNode)`); `fs::symlink_metadata` is association-list
  lookup (lstat semantics), while `fs::metadata` / `Path::exists` / `is_dir` /
  `is_file` follow symlink chains with fuel (a chain longer than the whole map,
  i.e. a cycle, resolves to "not found", matching the `ELOOP` error in Rust).
  Symlink targets are stored as absolute paths.
* Fallible Rust functions that can only fail on I/O errors the model does not
  represent (e.g. an unreadable directory) are total here; error paths that a
  claim talks about are returned explicitly.
-/

namespace ThemeManager

/-! ## Path/Name utilities (src/rust/src/paths.rs) -/

/-- The tag-stripping loop of `normalize_theme_name` (paths.rs:6-15): a `<`
sets the `in_tag` flag (and is dropped), a `>` clears it (and is dropped),
any character seen while the flag is set is dropped, everything else is kept. -/
def stripTags : Bool → List Char → List Char
  | _, [] => []
  | b, c :: rest =>
    if c = '<' then stripTags true rest
    else if c = '>' then stripTags false rest
    else if b then stripTags true rest
    else c :: stripTags false rest

/-- Rust `str::trim` on a character list: drop leading and trailing
whitespace. -/
def trimChars (l : List Char) : List Char :=
  ((l.dropWhile Char.isWhitespace).reverse.dropWhile Char.isWhitespace).reverse

/-- `normalize_theme_name` (paths.rs:5-18) on the character list: strip
`<...>` tags, trim, lowercase (`Char.toLower`, see the file comment), and
replace each space with a hyphen. -/
def normalizeChars (l : List Char) : List Char :=
  ((trimChars (stripTags false l)).map Char.toLower).map
    (fun c => if c = ' ' then '-' else c)

/-- `normalize_theme_name` (paths.rs:5-18). -/
def normalize_theme_name (input : String) : String :=
  ⟨normalizeChars input.data⟩

/-- Substring test on character lists (used to state claims about error
message text): `containsSub needle hay` is true iff `needle` occurs
contiguously in `hay`. -/
def containsSub (needle : List Char) : List Char → Bool
  | [] => needle.isEmpty
  | c :: rest => needle.isPrefixOf (c :: rest) || containsSub needle rest

/-- Substring test on strings (`str::contains` with a string pattern). -/
def strContains (hay sub : String) : Bool :=
  containsSub sub.data hay.data

/-! ## `next_theme` (src/rust/src/theme_ops.rs:225-233) -/

/-- `next_theme` (theme_ops.rs:225-233): if the current name occurs in the
entry list, pick the entry after it, wrapping modulo the length; otherwise
pick the first entry. `cmd_next` (theme_ops.rs:141-151) only calls this with
a non-empty list; on an empty list the Rust code would panic on `entries[0]`
and the model returns `""` (the `getD` default is never exercised under the
caller's guard). -/
def next_theme (entries : List String) (current : Option String) : String :=
  match current with
  | some c =>
    match entries.findIdx? (fun name => name == c) with
    | some idx => (entries.get? ((idx + 1) % entries.length)).getD ""
    | none => (entries.get? 0).getD ""
  | none => (entries.get? 0).getD ""

/-! ## Lemmas about normalization (toward claim C10) -/

theorem toNat_ofNat_of_valid {n : Nat} (h : n.isValidChar) : (Char.ofNat n).toNat = n := by
  unfold Char.ofNat
  rw [dif_pos h]
  rfl

theorem toLower_toNat_of_upper {c : Char} (h65 : 65 ≤ c.toNat) (h90 : c.toNat ≤ 90) :
    (Char.toLower c).toNat = c.toNat + 32 := by
  have hvalid : (c.toNat + 32).isValidChar := Or.inl (by omega)
  have hif : Char.toLower c = Char.ofNat (c.toNat + 32) := by
    simp only [Char.toLower]
    rw [if_pos ⟨h65, h90⟩]
  rw [hif, toNat_ofNat_of_valid hvalid]

theorem toLower_eq_self_of_not_upper {c : Char} (h : ¬(65 ≤ c.toNat ∧ c.toNat ≤ 90)) :
    Char.toLower c = c := by
  simp only [Char.toLower]
  rw [if_neg h]

/-- The result of `Char.toLower` is never an ASCII uppercase letter, so
lowering is idempotent. -/
theorem toLower_idem (c : Char) : Char.toLower (Char.toLower c) = Char.toLower c := by
  by_cases h : 65 ≤ c.toNat ∧ c.toNat ≤ 90
  · have ht := toLower_toNat_of_upper h.1 h.2
    apply toLower_eq_self_of_not_upper
    omega
  · rw [toLower_eq_self_of_not_upper h, toLower_eq_self_of_not_upper h]

/-- `Char.toLower` never changes the character's identity outside A-Z, and on
A-Z it lands in a-z; so its image avoids any character whose code is outside
both `{c.toNat}` and `[97,122]`. -/
theorem toLower_toNat_mem (c : Char) :
    (Char.toLower c).toNat = c.toNat ∨
      (97 ≤ (Char.toLower c).toNat ∧ (Char.toLower c).toNat ≤ 122) := by
  by_cases h : 65 ≤ c.toNat ∧ c.toNat ≤ 90
  · right; have := toLower_toNat_of_upper h.1 h.2; omega
  · left; rw [toLower_eq_self_of_not_upper h]

theorem char_eq_iff_toNat {a b : Char} : a = b ↔ a.toNat = b.toNat := by
  constructor
  · intro h; rw [h]
  · intro h
    exact Char.eq_of_val_eq (UInt32.toNat.inj h)

theorem stripTags_no_tags (b : Bool) (l : List Char) :
    ∀ c ∈ stripTags b l, c ≠ '<' ∧ c ≠ '>' := by
  induction l generalizing b with
  | nil => intro c hc; simp [stripTags] at hc
  | cons hd tl ih =>
    intro c hc
    simp only [stripTags] at hc
    by_cases h1 : hd = '<'
    · exact ih true c (by simpa [h1] using hc)
    · by_cases h2 : hd = '>'
      · exact ih false c (by simpa [h1, h2] using hc)
      · cases b with
        | true => exact ih true c (by simpa [h1, h2] using hc)
        | false =>
          simp only [h1, h2, if_false, ite_false, if_neg, Bool.false_eq_true,
            List.mem_cons] at hc
          rcases hc with hc | hc
          · subst hc; exact ⟨h1, h2⟩
          · exact ih false c hc

theorem stripTags_eq_self (l : List Char)
    (h : ∀ c ∈ l, c ≠ '<' ∧ c ≠ '>') : stripTags false l = l := by
  induction l with
  | nil => rfl
  | cons hd tl ih =>
    have hhd := h hd (by simp)
    simp only [stripTags, hhd.1, hhd.2, if_false, ite_false]
    exact congrArg (hd :: ·) (ih fun c hc => h c (by simp [hc]))

/-- "The head, if any, is not whitespace." -/
def HeadOk (l : List Char) : Prop :=
  ∀ c, l.head? = some c → c.isWhitespace = false

theorem headOk_dropWhile (l : List Char) :
    HeadOk (l.dropWhile Char.isWhitespace) := by
  induction l with
  | nil => intro c hc; simp at hc
  | cons hd tl ih =>
    intro c hc
    by_cases h : hd.isWhitespace
    · exact ih c (by simpa [List.dropWhile, h] using hc)
    · simp only [List.dropWhile, h, Bool.false_eq_true, if_false, ite_false,
        List.head?_cons, Option.some.injEq] at hc
      simpa [← hc] using h

theorem dropWhile_eq_self_of_headOk {l : List Char} (h : HeadOk l) :
    l.dropWhile Char.isWhitespace = l := by
  cases l with
  | nil => rfl
  | cons hd tl =>
    have := h hd (by simp)
    simp [List.dropWhile, this]

theorem getLast?_dropWhile_of_ne_nil {p : Char → Bool} (m : List Char)
    (h : m.dropWhile p ≠ []) : (m.dropWhile p).getLast? = m.getLast? := by
  induction m with
  | nil => simp at h
  | cons hd tl ih =>
    by_cases hp : p hd
    · have hd' : (hd :: tl).dropWhile p = tl.dropWhile p := by simp [List.dropWhile, hp]
      rw [hd'] at h ⊢
      have htl : tl ≠ [] := by
        intro he; rw [he] at h; simp at h
      rw [ih h]
      cases tl with
      | nil => simp at htl
      | cons a t => rw [List.getLast?_cons_cons]
    · simp [List.dropWhile, hp]

theorem headOk_trimChars_reverse (l : List Char) : HeadOk (trimChars l).reverse := by
  unfold trimChars
  rw [List.reverse_reverse]
  exact headOk_dropWhile _

theorem headOk_trimChars (l : List Char) : HeadOk (trimChars l) := by
  unfold trimChars
  intro c hc
  rw [List.head?_reverse] at hc
  set A := l.dropWhile Char.isWhitespace with hA
  have hne : A.reverse.dropWhile Char.isWhitespace ≠ [] := by
    intro he; rw [he] at hc; simp at hc
  rw [getLast?_dropWhile_of_ne_nil _ hne, List.getLast?_reverse] at hc
  exact headOk_dropWhile l c hc

theorem trimChars_eq_self {l : List Char} (h1 : HeadOk l) (h2 : HeadOk l.reverse) :
    trimChars l = l := by
  unfold trimChars
  rw [dropWhile_eq_self_of_headOk h1, dropWhile_eq_self_of_headOk h2,
    List.reverse_reverse]

theorem map_eq_self_of {f : Char → Char} {l : List Char}
    (h : ∀ c ∈ l, f c = c) : l.map f = l := by
  induction l with
  | nil => rfl
  | cons hd tl ih =>
    simp only [List.map_cons, h hd (by simp)]
    exact congrArg (hd :: ·) (ih fun c hc => h c (by simp [hc]))

/-- The per-character postprocessing of `normalize_theme_name` after the tag
strip and trim: lowercase, then space-to-hyphen. -/
def postChar (c : Char) : Char :=
  if Char.toLower c = ' ' then '-' else Char.toLower c

theorem normalizeChars_eq_map (l : List Char) :
    normalizeChars l = (trimChars (stripTags false l)).map postChar := by
  unfold normalizeChars postChar
  rw [List.map_map]
  rfl

theorem postChar_props {a : Char} (ha : a ≠ '<' ∧ a ≠ '>') :
    postChar a ≠ '<' ∧ postChar a ≠ '>' ∧ postChar a ≠ ' ' ∧
      Char.toLower (postChar a) = postChar a ∧
      (a.isWhitespace = false → (postChar a).isWhitespace = false) := by
  have htag : (Char.toLower a).toNat ≠ 60 ∧ (Char.toLower a).toNat ≠ 62 := by
    rcases toLower_toNat_mem a with h | h
    · constructor
      · intro he; rw [he] at h
        exact ha.1 (char_eq_iff_toNat.mpr h.symm)
      · intro he; rw [he] at h
        exact ha.2 (char_eq_iff_toNat.mpr h.symm)
    · omega
  by_cases hsp : Char.toLower a = ' '
  · have hpost : postChar a = '-' := by simp [postChar, hsp]
    refine ⟨?_, ?_, ?_, ?_, ?_⟩
    · rw [hpost]; decide
    · rw [hpost]; decide
    · rw [hpost]; decide
    · rw [hpost]; decide
    · intro hws; rw [hpost]; decide
  · have hpost : postChar a = Char.toLower a := by simp [postChar, hsp]
    refine ⟨?_, ?_, ?_, ?_, ?_⟩
    · rw [hpost]; intro he
      exact htag.1 (by rw [he]; rfl)
    · rw [hpost]; intro he
      exact htag.2 (by rw [he]; rfl)
    · rw [hpost]; exact hsp
    · rw [hpost]; exact toLower_idem a
    · intro hws
      rw [hpost]
      have hn : a.toNat ≠ 32 ∧ a.toNat ≠ 9 ∧ a.toNat ≠ 13 ∧ a.toNat ≠ 10 := by
        refine ⟨?_, ?_, ?_, ?_⟩ <;>
          · intro he
            have : a = ' ' ∨ a = '\t' ∨ a = '\r' ∨ a = '\n' := by
              first
              | exact Or.inl (char_eq_iff_toNat.mpr he)
              | exact Or.inr (Or.inl (char_eq_iff_toNat.mpr he))
              | exact Or.inr (Or.inr (Or.inl (char_eq_iff_toNat.mpr he)))
              | exact Or.inr (Or.inr (Or.inr (char_eq_iff_toNat.mpr he)))
            rcases this with h | h | h | h <;> simp [Char.isWhitespace, h] at hws
      have hlow : (Char.toLower a).toNat ≠ 32 ∧ (Char.toLower a).toNat ≠ 9 ∧
          (Char.toLower a).toNat ≠ 13 ∧ (Char.toLower a).toNat ≠ 10 := by
        rcases toLower_toNat_mem a with h | h <;> omega
      simp only [Char.isWhitespace]
      have h1 : Char.toLower a ≠ ' ' := fun he => hlow.1 (by rw [he]; rfl)
      have h2 : Char.toLower a ≠ '\t' := fun he => hlow.2.1 (by rw [he]; rfl)
      have h3 : Char.toLower a ≠ '\r' := fun he => hlow.2.2.1 (by rw [he]; rfl)
      have h4 : Char.toLower a ≠ '\n' := fun he => hlow.2.2.2 (by rw [he]; rfl)
      simp [h1, h2, h3, h4]

theorem mem_trimChars {l : List Char} {c : Char} (h : c ∈ trimChars l) : c ∈ l := by
  unfold trimChars at h
  rw [List.mem_reverse] at h
  have h2 := (List.dropWhile_sublist (l := (l.dropWhile Char.isWhitespace).reverse)
    (p := Char.isWhitespace)).mem h
  rw [List.mem_reverse] at h2
  exact (List.dropWhile_sublist (l := l) (p := Char.isWhitespace)).mem h2

theorem normalizeChars_chars {l : List Char} :
    ∀ c ∈ normalizeChars l, c ≠ '<' ∧ c ≠ '>' ∧ c ≠ ' ' ∧
      Char.toLower c = c := by
  intro c hc
  rw [normalizeChars_eq_map] at hc
  rcases List.mem_map.mp hc with ⟨a, ha, rfl⟩
  have hna := stripTags_no_tags false l a (mem_trimChars ha)
  have := postChar_props hna
  exact ⟨this.1, this.2.1, this.2.2.1, this.2.2.2.1⟩

theorem headOk_normalizeChars (l : List Char) : HeadOk (normalizeChars l) := by
  rw [normalizeChars_eq_map]
  intro c hc
  rw [List.head?_map] at hc
  set T := trimChars (stripTags false l) with hT
  cases hh : T.head? with
  | none => rw [hh] at hc; simp at hc
  | some a =>
    rw [hh] at hc
    simp only [Option.map_some', Option.some.injEq] at hc
    have hna := stripTags_no_tags false l a
      (mem_trimChars (List.mem_of_mem_head? hh))
    have hws := headOk_trimChars (stripTags false l) a hh
    rw [← hc]
    exact (postChar_props hna).2.2.2.2 hws

theorem headOk_normalizeChars_reverse (l : List Char) :
    HeadOk (normalizeChars l).reverse := by
  rw [normalizeChars_eq_map, ← List.map_reverse]
  intro c hc
  rw [List.head?_map] at hc
  set T := (trimChars (stripTags false l)).reverse with hT
  cases hh : T.head? with
  | none => rw [hh] at hc; simp at hc
  | some a =>
    rw [hh] at hc
    simp only [Option.map_some', Option.some.injEq] at hc
    have hmem : a ∈ trimChars (stripTags false l) := by
      rw [← List.mem_reverse]
      exact List.mem_of_mem_head? hh
    have hna := stripTags_no_tags false l a (mem_trimChars hmem)
    have hws := headOk_trimChars_reverse (stripTags false l) a hh
    rw [← hc]
    exact (postChar_props hna).2.2.2.2 hws

theorem normalizeChars_idem (l : List Char) :
    normalizeChars (normalizeChars l) = normalizeChars l := by
  set y := normalizeChars l with hy
  have hchars := normalizeChars_chars (l := l)
  have hstrip : stripTags false y = y :=
    stripTags_eq_self y fun c hc => ⟨(hchars c hc).1, (hchars c hc).2.1⟩
  have htrim : trimChars y = y :=
    trimChars_eq_self (headOk_normalizeChars l) (headOk_normalizeChars_reverse l)
  unfold normalizeChars
  rw [hstrip, htrim]
  rw [map_eq_self_of fun c hc => (hchars c hc).2.2.2]
  exact map_eq_self_of fun c hc => by simp [(hchars c hc).2.2.1]

/-! ## Lemmas about `findIdx?` (toward claim C6) -/

theorem findIdx?_beq_of_nodup (l : List String) (i : Nat) (c : String)
    (hn : l.Nodup) (hi : i < l.length) (hc : l.get ⟨i, hi⟩ = c) :
    l.findIdx? (fun name => name == c) = some i := by
  induction l generalizing i with
  | nil => simp at hi
  | cons hd tl ih =>
    cases i with
    | zero =>
      simp only [List.get] at hc
      simp [List.findIdx?_cons, hc]
    | succ j =>
      have hj : j < tl.length := by simpa using hi
      have hmem : c ∈ tl := by
        rw [← hc]
        exact List.get_mem tl j hj
      have hne : (hd == c) = false := by
        rw [beq_eq_false_iff_ne]
        intro he
        exact (List.nodup_cons.mp hn).1 (he ▸ hmem)
      simp only [List.findIdx?_cons, hne, Bool.false_eq_true, if_false, ite_false]
      rw [List.findIdx?_succ, ih j (List.nodup_cons.mp hn).2 hj (by simpa using hc)]
      rfl

/-! ## Claim theorems: C10 and C6 -/

/-- C10: `normalize_theme_name` is idempotent — for every input string `s`,
`normalize_theme_name (normalize_theme_name s) = normalize_theme_name s` —
and indeed its output never contains `<`, `>` or space characters, and has no
leading or trailing whitespace (trimming it again changes nothing). -/
theorem c10_normalize_theme_name_idempotent (s : String) :
    normalize_theme_name (normalize_theme_name s) = normalize_theme_name s ∧
    (∀ c ∈ (normalize_theme_name s).data, c ≠ '<' ∧ c ≠ '>' ∧ c ≠ ' ') ∧
    trimChars (normalize_theme_name s).data = (normalize_theme_name s).data := by
  refine ⟨?_, ?_, ?_⟩
  · show (⟨normalizeChars (normalizeChars s.data)⟩ : String) = ⟨normalizeChars s.data⟩
    rw [normalizeChars_idem]
  · intro c hc
    have := normalizeChars_chars (l := s.data) c hc
    exact ⟨this.1, this.2.1, this.2.2.1⟩
  · exact trimChars_eq_self (headOk_normalizeChars s.data)
      (headOk_normalizeChars_reverse s.data)

/-- C6: given the sorted duplicate-free non-empty list of theme entries, if
the current theme name occurs at index `i`, `next_theme` (the selector
`cmd_next` feeds into `cmd_set`) returns the entry at index
`(i+1) mod length`; if the current name is absent from the list or unset, it
returns the first entry. In particular, on `[alpha, bravo, charlie]`:
current `bravo` selects `charlie`, current `charlie` wraps to `alpha`, and an
unset current selects `alpha`. -/
theorem c6_next_theme_cycle :
    (∀ (entries : List String) (c : String) (i : Nat) (hi : i < entries.length),
      entries.Nodup → entries.get ⟨i, hi⟩ = c →
      next_theme entries (some c) =
        entries.get ⟨(i + 1) % entries.length, Nat.mod_lt _ (by omega)⟩) ∧
    (∀ (entries : List String) (c : String) (hne : entries ≠ []),
      c ∉ entries → next_theme entries (some c) = entries.head hne) ∧
    (∀ (entries : List String) (hne : entries ≠ []),
      next_theme entries none = entries.head hne) ∧
    next_theme ["alpha", "bravo", "charlie"] (some "bravo") = "charlie" ∧
    next_theme ["alpha", "bravo", "charlie"] (some "charlie") = "alpha" ∧
    next_theme ["alpha", "bravo", "charlie"] none = "alpha" := by
  refine ⟨?_, ?_, ?_, by rfl, by rfl, by rfl⟩
  · intro entries c i hi hn hc
    simp only [next_theme]
    rw [findIdx?_beq_of_nodup entries i c hn hi hc]
    have hlt : (i + 1) % entries.length < entries.length := Nat.mod_lt _ (by omega)
    dsimp only
    rw [List.get?_eq_get hlt]
    rfl
  · intro entries c hne hc
    have hnone : entries.findIdx? (fun name => name == c) = none := by
      rw [List.findIdx?_eq_none_iff]
      intro x hx
      rw [beq_eq_false_iff_ne]
      intro he
      exact hc (he ▸ hx)
    simp only [next_theme, hnone]
    cases entries with
    | nil => simp at hne
    | cons a t => rfl
  · intro entries hne
    simp only [next_theme]
    cases entries with
    | nil => simp at hne
    | cons a t => rfl

/-- Witness for C6: the first conjunct applied at the concrete list
`[alpha, bravo, charlie]` with current `bravo` at index 1. -/
theorem c6_next_theme_cycle_witness :
    next_theme ["alpha", "bravo", "charlie"] (some "bravo") =
      ["alpha", "bravo", "charlie"].get ⟨2 % 3, by decide⟩ :=
  c6_next_theme_cycle.1 ["alpha", "bravo", "charlie"] "bravo" 1 (by decide)
    (by decide) (by decide)

/-! ## The filesystem model

A finite association list from absolute paths (component lists) to nodes.
`fsFind` is `fs::symlink_metadata` (lstat: it does not follow a symlink at
the looked-up path itself); `fsStat` is `fs::metadata` (stat: it follows
symlink chains, with fuel `fs.length + 1`, so a cycle behaves like the
`ELOOP` error, i.e. "no metadata"). -/

abbrev FsPath := List String

inductive FsNode where
  | fileN (content : String)
  | dirN
  | linkN (target : FsPath)
deriving DecidableEq, Repr

abbrev Fs := List (FsPath × FsNode)

/-- `fs::symlink_metadata` (lstat): the node recorded at exactly `p`. -/
def fsFind (fs : Fs) (p : FsPath) : Option FsNode :=
  (fs.find? (fun e => e.1 == p)).map (·.2)

/-- `fs::remove_file` / `fs::remove_dir_all` at `p` (the model keys whole
trees by their root path, so both are the removal of the entry at `p`). -/
def fsErase (fs : Fs) (p : FsPath) : Fs :=
  fs.filter (fun e => !(e.1 == p))

/-- Create (or overwrite) the node at `p`. -/
def fsInsert (fs : Fs) (p : FsPath) (n : FsNode) : Fs :=
  (p, n) :: fsErase fs p

/-- Follow symlink chains for at most `fuel` steps (stat semantics). -/
def statNode (fs : Fs) : Nat → FsPath → Option FsNode
  | 0, _ => none
  | fuel + 1, p =>
    match fsFind fs p with
    | some (.linkN t) => statNode fs fuel t
    | other => other

/-- `fs::metadata` (stat). -/
def fsStat (fs : Fs) (p : FsPath) : Option FsNode :=
  statNode fs (fs.length + 1) p

/-- `Path::exists`. -/
def pathExists (fs : Fs) (p : FsPath) : Bool :=
  (fsStat fs p).isSome

/-- `Path::is_dir`. -/
def isDirFs (fs : Fs) (p : FsPath) : Bool :=
  match fsStat fs p with
  | some .dirN => true
  | _ => false

/-- `Path::is_file`. -/
def isFileFs (fs : Fs) (p : FsPath) : Bool :=
  match fsStat fs p with
  | some (.fileN _) => true
  | _ => false

/-- `path.is_file()` followed by `fs::read_to_string(path)`. -/
def statFileContent (fs : Fs) (p : FsPath) : Option String :=
  match fsStat fs p with
  | some (.fileN c) => some c
  | _ => none

/-- `Path::is_symlink` / "symlink_metadata says symlink". -/
def isSymlinkFs (fs : Fs) (p : FsPath) : Bool :=
  match fsFind fs p with
  | some (.linkN _) => true
  | _ => false

/-- `fs::create_dir_all p`: create every missing ancestor directory of `p`
and `p` itself (existing nodes are left alone). -/
def createDirAll (fs : Fs) (p : FsPath) : Fs :=
  p.inits.foldl
    (fun acc q =>
      if q.isEmpty then acc
      else
        match fsFind acc q with
        | some _ => acc
        | none => fsInsert acc q .dirN)
    fs

/-- Path rendering (`Path::to_string_lossy` on the absolute paths of the
model). -/
def pathStr (p : FsPath) : String :=
  String.intercalate "/" p

theorem fsFind_insert_self (fs : Fs) (p : FsPath) (n : FsNode) :
    fsFind (fsInsert fs p n) p = some n := by
  simp [fsFind, fsInsert, List.find?]

theorem fsFind_insert_ne (fs : Fs) (p q : FsPath) (n : FsNode) (h : q ≠ p) :
    fsFind (fsInsert fs p n) q = fsFind fs q := by
  simp only [fsFind, fsInsert, List.find?]
  have : (p == q) = false := by
    rw [beq_eq_false_iff_ne]
    exact fun he => h he.symm
  simp only [this]
  induction fs with
  | nil => rfl
  | cons e t ih =>
    by_cases he : e.1 = p
    · simp only [fsErase, List.filter]
      have : (e.1 == p) = true := beq_iff_eq.mpr he
      simp only [this, Bool.not_true]
      have h2 : (e.1 == q) = false := by
        rw [beq_eq_false_iff_ne]
        intro h3
        exact h (h3 ▸ he)
      simp only [List.find?, h2]
      simpa [fsErase] using ih
    · simp only [fsErase, List.filter]
      have : (e.1 == p) = false := by rwa [beq_eq_false_iff_ne]
      simp only [this, Bool.not_false]
      by_cases h2 : e.1 = q
      · have : (e.1 == q) = true := beq_iff_eq.mpr h2
        simp [List.find?, this]
      · have h3 : (e.1 == q) = false := by rwa [beq_eq_false_iff_ne]
        simp only [List.find?, h3]
        simpa [fsErase] using ih

theorem fsFind_erase_self (fs : Fs) (p : FsPath) :
    fsFind (fsErase fs p) p = none := by
  induction fs with
  | nil => rfl
  | cons e t ih =>
    simp only [fsErase, List.filter] at *
    by_cases he : e.1 = p
    · have : (e.1 == p) = true := beq_iff_eq.mpr he
      simpa [this] using ih
    · have : (e.1 == p) = false := by rwa [beq_eq_false_iff_ne]
      simp only [this, Bool.not_false, fsFind, List.find?]
      exact ih

theorem fsFind_erase_ne (fs : Fs) (p q : FsPath) (h : q ≠ p) :
    fsFind (fsErase fs p) q = fsFind fs q := by
  induction fs with
  | nil => rfl
  | cons e t ih =>
    simp only [fsErase, List.filter] at *
    by_cases he : e.1 = p
    · have hep : (e.1 == p) = true := beq_iff_eq.mpr he
      have heq : (e.1 == q) = false := by
        rw [beq_eq_false_iff_ne]
        intro h2
        exact h (h2 ▸ he)
      simpa [hep, fsFind, List.find?, heq] using ih
    · have hep : (e.1 == p) = false := by rwa [beq_eq_false_iff_ne]
      by_cases h2 : e.1 = q
      · have : (e.1 == q) = true := beq_iff_eq.mpr h2
        simp [hep, fsFind, List.find?, this]
      · have heq : (e.1 == q) = false := by rwa [beq_eq_false_iff_ne]
        simpa [hep, fsFind, List.find?, heq] using ih

/-! ## `ensure_symlink` (src/rust/src/omarchy_defaults.rs:195-234) -/

inductive SymlinkEnsureResult where
  | Created
  | Updated
  | Unchanged
  | SkippedNonSymlink
deriving DecidableEq, Repr

/-- `ensure_symlink` (omarchy_defaults.rs:195-234), unix configuration: on a
present non-symlink it refuses to touch the path (`SkippedNonSymlink`); on a
symlink it compares `fs::read_link` with the wanted target and either no-ops
(`Unchanged`) or removes and recreates the link (`Updated`); on `NotFound` it
creates the parent directories and the link (`Created`). The only error paths
of the source are I/O failures of `read_link`/`remove_file`/`symlink`/
`create_dir_all` themselves, which the model does not represent, so the model
is total. -/
def ensure_symlink (fs : Fs) (link_path target : FsPath) :
    Fs × SymlinkEnsureResult :=
  match fsFind fs link_path with
  | some meta =>
    match meta with
    | .fileN _ => (fs, .SkippedNonSymlink)
    | .dirN => (fs, .SkippedNonSymlink)
    | .linkN current_target =>
      if current_target = target then (fs, .Unchanged)
      else
        (fsInsert (fsErase fs link_path) link_path (.linkN target), .Updated)
  | none =>
    let fs1 :=
      if link_path = [] then fs else createDirAll fs link_path.dropLast
    (fsInsert fs1 link_path (.linkN target), .Created)

/-- C3: `ensure_symlink` is idempotent — the second of two identical calls
changes nothing and never reaches an outcome other than the first call
reported stable: after a `Created` or `Updated` first call the second call
returns `Unchanged` on the identical state, and a non-symlink occupant makes
both calls return `SkippedNonSymlink` and leave the whole filesystem exactly
as it was. (The source's only error paths are raw I/O failures, which the
model does not represent; in particular the second call takes no branch that
can fail.) -/
theorem c3_ensure_symlink_idempotent (fs : Fs) (link_path target : FsPath) :
    (ensure_symlink (ensure_symlink fs link_path target).1 link_path target).1 =
      (ensure_symlink fs link_path target).1 ∧
    ((ensure_symlink fs link_path target).2 = .Created ∨
      (ensure_symlink fs link_path target).2 = .Updated ∨
      (ensure_symlink fs link_path target).2 = .Unchanged →
      (ensure_symlink (ensure_symlink fs link_path target).1 link_path target).2 =
        .Unchanged) ∧
    ((ensure_symlink fs link_path target).2 = .SkippedNonSymlink →
      (ensure_symlink fs link_path target).1 = fs ∧
      (ensure_symlink (ensure_symlink fs link_path target).1 link_path target).2 =
        .SkippedNonSymlink) := by
  have hsecond :
      ∀ g : Fs, fsFind g link_path = some (.linkN target) →
        ensure_symlink g link_path target = (g, .Unchanged) := by
    intro g hg
    unfold ensure_symlink
    rw [hg]
    simp
  cases hf : fsFind fs link_path with
  | none =>
    have h1 : ensure_symlink fs link_path target =
        (fsInsert (if link_path = [] then fs else createDirAll fs link_path.dropLast)
          link_path (.linkN target), .Created) := by
      unfold ensure_symlink
      rw [hf]
    have h2 := hsecond (ensure_symlink fs link_path target).1
      (by rw [h1]; exact fsFind_insert_self _ _ _)
    refine ⟨by rw [h2], fun _ => by rw [h2], fun hsk => ?_⟩
    rw [h1] at hsk
    simp at hsk
  | some meta =>
    cases meta with
    | fileN c =>
      have h1 : ensure_symlink fs link_path target = (fs, .SkippedNonSymlink) := by
        unfold ensure_symlink
        rw [hf]
      have h2 : ensure_symlink (ensure_symlink fs link_path target).1 link_path target =
          (fs, .SkippedNonSymlink) := by
        rw [h1]
        exact h1
      refine ⟨by rw [h2, h1], fun hco => ?_, fun _ => ⟨by rw [h1], by rw [h2]⟩⟩
      rw [h1] at hco
      simp at hco
    | dirN =>
      have h1 : ensure_symlink fs link_path target = (fs, .SkippedNonSymlink) := by
        unfold ensure_symlink
        rw [hf]
      have h2 : ensure_symlink (ensure_symlink fs link_path target).1 link_path target =
          (fs, .SkippedNonSymlink) := by
        rw [h1]
        exact h1
      refine ⟨by rw [h2, h1], fun hco => ?_, fun _ => ⟨by rw [h1], by rw [h2]⟩⟩
      rw [h1] at hco
      simp at hco
    | linkN ct =>
      by_cases hct : ct = target
      · have h1 : ensure_symlink fs link_path target = (fs, .Unchanged) := by
          unfold ensure_symlink
          rw [hf]
          simp [hct]
        have h2 : ensure_symlink (ensure_symlink fs link_path target).1 link_path target =
            (fs, .Unchanged) := by
          rw [h1]
          exact hsecond fs (by rw [← hct]; exact hf)
        refine ⟨by rw [h2, h1], fun _ => by rw [h2], fun hsk => ?_⟩
        rw [h1] at hsk
        simp at hsk
      · have h1 : ensure_symlink fs link_path target =
            (fsInsert (fsErase fs link_path) link_path (.linkN target), .Updated) := by
          unfold ensure_symlink
          rw [hf]
          simp [hct]
        have h2 := hsecond (ensure_symlink fs link_path target).1
          (by rw [h1]; exact fsFind_insert_self _ _ _)
        refine ⟨by rw [h2], fun _ => by rw [h2], fun hsk => ?_⟩
        rw [h1] at hsk
        simp at hsk

/-- Witness for C3: at the concrete state where the link is absent, the first
call reports `Created` and the theorem yields `Unchanged` stability for the
second call. -/
theorem c3_ensure_symlink_idempotent_witness :
    (ensure_symlink
        (ensure_symlink [] ["themes", "omarchy-default"] ["root", "default"]).1
        ["themes", "omarchy-default"] ["root", "default"]).2 = .Unchanged :=
  (c3_ensure_symlink_idempotent [] ["themes", "omarchy-default"]
      ["root", "default"]).2.1 (Or.inl (by rfl))

/-! ## The waybar backup-and-replace primitive
(src/rust/src/waybar.rs:325-390) -/

/-- `timestamp_suffix()` (waybar.rs:385-390) is the wall-clock Unix time; the
model takes it as the explicit parameter `stamp`. `unique_backup_target`
(waybar.rs:376-383): the destination's base name inside the backup directory,
with a `-<stamp>` suffix when that name is already taken. -/
def unique_backup_target (fs : Fs) (dir : FsPath) (name : String) (stamp : Nat) :
    FsPath :=
  let candidate := dir ++ [name]
  if pathExists fs candidate = false then candidate
  else dir ++ [name ++ "-" ++ toString stamp]

/-- `ensure_backup_dir` (waybar.rs:356-374). The `&mut Option<PathBuf>` cache
argument is threaded explicitly: it comes in as `backup_dir` and the updated
cache goes out as the third component (the second component is the returned
backup root). -/
def ensure_backup_dir (fs : Fs) (waybar_themes_dir : FsPath)
    (backup_dir : Option FsPath) (stamp : Nat) : Fs × FsPath × Option FsPath :=
  match backup_dir with
  | some existing => (fs, existing, some existing)
  | none =>
    let base := waybar_themes_dir ++ ["existing"]
    let chosen :=
      if pathExists fs base then
        waybar_themes_dir ++ ["existing-" ++ toString stamp]
      else base
    (createDirAll fs chosen, chosen, some chosen)

/-- `replace_existing_path` (waybar.rs:325-354): lstat the destination; if
absent, do nothing; if it is a symlink, unlink it; otherwise obtain the
(possibly cached) backup directory and `fs::rename` the destination into it
under its unique backup name. The `quiet` flag only suppresses a progress
line and is omitted. -/
def replace_existing_path (fs : Fs) (dest : FsPath) (name : String)
    (waybar_themes_dir : FsPath) (backup_dir : Option FsPath) (stamp : Nat) :
    Fs × Option FsPath :=
  match fsFind fs dest with
  | none => (fs, backup_dir)
  | some (.linkN _) => (fsErase fs dest, backup_dir)
  | some meta =>
    let r := ensure_backup_dir fs waybar_themes_dir backup_dir stamp
    let backup_target := unique_backup_target r.1 r.2.1 name stamp
    (fsInsert (fsErase r.1 dest) backup_target meta, r.2.2)

theorem ensure_backup_dir_cache (fs : Fs) (themesDir : FsPath)
    (cache : Option FsPath) (stamp : Nat) :
    (ensure_backup_dir fs themesDir cache stamp).2.2 =
      some (ensure_backup_dir fs themesDir cache stamp).2.1 := by
  cases cache <;> rfl

/-- C2: the backup-and-replace primitive is non-destructive. (1) An absent
destination is a no-op. (2) A symlink destination is unlinked (and nothing
else changes). (3) A non-symlink destination is renamed — never deleted or
overwritten — into the backup directory (`existing`, or
`existing-<stamp>` when `existing` is occupied, reused verbatim from the
per-apply cache when one is set), under its base name or, on a name
collision, its base name with a `-<stamp>` suffix; afterwards the original
node, content and all, is found at the backup target, so it is recoverable
byte-for-byte. -/
theorem c2_replace_existing_path_nondestructive
    (fs : Fs) (dest : FsPath) (name : String) (themesDir : FsPath)
    (cache : Option FsPath) (stamp : Nat) :
    (fsFind fs dest = none →
      replace_existing_path fs dest name themesDir cache stamp = (fs, cache)) ∧
    (∀ t, fsFind fs dest = some (.linkN t) →
      replace_existing_path fs dest name themesDir cache stamp =
        (fsErase fs dest, cache)) ∧
    (∀ n, fsFind fs dest = some n → (∀ t, n ≠ FsNode.linkN t) →
      ((replace_existing_path fs dest name themesDir cache stamp).2 =
          some (ensure_backup_dir fs themesDir cache stamp).2.1 ∧
        fsFind (replace_existing_path fs dest name themesDir cache stamp).1
          (unique_backup_target (ensure_backup_dir fs themesDir cache stamp).1
            (ensure_backup_dir fs themesDir cache stamp).2.1 name stamp) = some n ∧
        (dest ≠ unique_backup_target (ensure_backup_dir fs themesDir cache stamp).1
            (ensure_backup_dir fs themesDir cache stamp).2.1 name stamp →
          fsFind (replace_existing_path fs dest name themesDir cache stamp).1
            dest = none) ∧
        (∀ d, cache = some d →
          (ensure_backup_dir fs themesDir cache stamp).2.1 = d ∧
          (ensure_backup_dir fs themesDir cache stamp).1 = fs) ∧
        (cache = none →
          (ensure_backup_dir fs themesDir cache stamp).2.1 =
            (if pathExists fs (themesDir ++ ["existing"]) then
              themesDir ++ ["existing-" ++ toString stamp]
            else themesDir ++ ["existing"])) ∧
        ((unique_backup_target (ensure_backup_dir fs themesDir cache stamp).1
            (ensure_backup_dir fs themesDir cache stamp).2.1 name stamp =
            (ensure_backup_dir fs themesDir cache stamp).2.1 ++ [name]) ∨
          (unique_backup_target (ensure_backup_dir fs themesDir cache stamp).1
            (ensure_backup_dir fs themesDir cache stamp).2.1 name stamp =
            (ensure_backup_dir fs themesDir cache stamp).2.1 ++
              [name ++ "-" ++ toString stamp])))) := by
  refine ⟨?_, ?_, ?_⟩
  · intro h
    unfold replace_existing_path
    rw [h]
  · intro t h
    unfold replace_existing_path
    rw [h]
  · intro n hfind hnl
    have hred : replace_existing_path fs dest name themesDir cache stamp =
        (fsInsert (fsErase (ensure_backup_dir fs themesDir cache stamp).1 dest)
          (unique_backup_target (ensure_backup_dir fs themesDir cache stamp).1
            (ensure_backup_dir fs themesDir cache stamp).2.1 name stamp) n,
          (ensure_backup_dir fs themesDir cache stamp).2.2) := by
      unfold replace_existing_path
      rw [hfind]
      cases n with
      | fileN c => rfl
      | dirN => rfl
      | linkN t => exact absurd rfl (hnl t)
    refine ⟨?_, ?_, ?_, ?_, ?_, ?_⟩
    · rw [hred]
      exact ensure_backup_dir_cache fs themesDir cache stamp
    · rw [hred]
      exact fsFind_insert_self _ _ _
    · intro hne
      rw [hred]
      rw [fsFind_insert_ne _ _ _ _ hne]
      exact fsFind_erase_self _ _
    · intro d hd
      subst hd
      exact ⟨rfl, rfl⟩
    · intro hc
      subst hc
      rfl
    · unfold unique_backup_target
      by_cases hex : pathExists (ensure_backup_dir fs themesDir cache stamp).1
          ((ensure_backup_dir fs themesDir cache stamp).2.1 ++ [name]) = false
      · left; rw [if_pos hex]
      · right; rw [if_neg hex]

/-- Witness for C2: a destination occupied by a user's regular file, with an
empty cache, gets renamed into `themes/existing` under its base name and the
content is found there afterwards. -/
theorem c2_replace_existing_path_nondestructive_witness :
    fsFind (replace_existing_path
        [(["cfg", "waybar", "config.jsonc"], FsNode.fileN "user config")]
        ["cfg", "waybar", "config.jsonc"] "config.jsonc"
        ["cfg", "waybar", "themes"] none 7).1
      (unique_backup_target
        (ensure_backup_dir
          [(["cfg", "waybar", "config.jsonc"], FsNode.fileN "user config")]
          ["cfg", "waybar", "themes"] none 7).1
        (ensure_backup_dir
          [(["cfg", "waybar", "config.jsonc"], FsNode.fileN "user config")]
          ["cfg", "waybar", "themes"] none 7).2.1 "config.jsonc" 7) =
      some (FsNode.fileN "user config") :=
  ((c2_replace_existing_path_nondestructive
      [(["cfg", "waybar", "config.jsonc"], FsNode.fileN "user config")]
      ["cfg", "waybar", "config.jsonc"] "config.jsonc"
      ["cfg", "waybar", "themes"] none 7).2.2
    (FsNode.fileN "user config") (by rfl) (by intro t h; cases h)).2.1

/-! ## The waybar managed-link manifest
(src/rust/src/waybar.rs:10, 163-244) -/

/-- waybar.rs:10. -/
def WAYBAR_LINKS_FILE : String := ".theme-manager-waybar-links"

/-- Split a character list at every newline (`str::lines`; the trailing empty
segment `lines` omits is instead dropped by the emptiness filter below, and
the per-line `trim` also removes any carriage return). -/
def splitLinesChars : List Char → List (List Char)
  | [] => [[]]
  | c :: rest =>
    if c = '\n' then [] :: splitLinesChars rest
    else
      match splitLinesChars rest with
      | [] => [[c]]
      | l :: ls => (c :: l) :: ls

/-- The name list the manifest loop of `cleanup_waybar_links`
(waybar.rs:170-174) iterates over: each line, trimmed, empty lines skipped. -/
def parseManifest (content : String) : List String :=
  (((splitLinesChars content.data).map (fun l => (⟨trimChars l⟩ : String)))).filter
    (fun s => s ≠ "")

/-- One iteration of the cleanup loop (waybar.rs:175-187): if the manifest
name's path is (lstat) a symlink, unlink it; metadata errors and non-symlink
occupants are skipped. -/
def cleanupStep (waybar_dir : FsPath) (acc : Fs) (name : String) : Fs :=
  match fsFind acc (waybar_dir ++ [name]) with
  | some (.linkN _) => fsErase acc (waybar_dir ++ [name])
  | _ => acc

/-- `cleanup_waybar_links` (waybar.rs:163-191): if the manifest file from the
previous apply exists, unlink every still-symlink path it names, then remove
the manifest itself. -/
def cleanup_waybar_links (fs : Fs) (waybar_dir : FsPath) : Fs :=
  match statFileContent fs (waybar_dir ++ [WAYBAR_LINKS_FILE]) with
  | none => fs
  | some content =>
    fsErase ((parseManifest content).foldl (cleanupStep waybar_dir) fs)
      (waybar_dir ++ [WAYBAR_LINKS_FILE])

/-- A `fs::read_dir` entry of the source bundle directory, as
`link_waybar_subdirs` (waybar.rs:202-216) probes it: its `file_type()`
(dir / regular / symlink) and, for a symlink, whether the followed
`fs::metadata` is a directory (`false` also covers a dangling link). -/
inductive SrcKind where
  | dirK
  | fileK
  | linkK (metaIsDir : Bool)
deriving DecidableEq, Repr

/-- The `is_dir` computation of waybar.rs:210-216. -/
def srcIsDirLike : SrcKind → Bool
  | .dirK => true
  | .fileK => false
  | .linkK b => b

/-- The manifest text written by waybar.rs:237-242: each linked name followed
by a newline. -/
def manifestText (names : List String) : String :=
  names.foldl (fun acc n => acc ++ n ++ "\n") ""

/-- One iteration of the linking loop (waybar.rs:201-229) over the state
(filesystem, backup-dir cache, linked names so far): marker files
`config.jsonc`/`style.css` and non-directory entries are skipped; a directory
entry has its destination backed up or unlinked by `replace_existing_path`
and is then symlinked, and its name is recorded. -/
def linkStep (theme_waybar_dir waybar_dir waybar_themes_dir : FsPath) (stamp : Nat)
    (st : Fs × Option FsPath × List String) (e : String × SrcKind) :
    Fs × Option FsPath × List String :=
  if e.1 = "config.jsonc" ∨ e.1 = "style.css" then st
  else if srcIsDirLike e.2 = false then st
  else
    let dest := waybar_dir ++ [e.1]
    let r := replace_existing_path st.1 dest e.1 waybar_themes_dir st.2.1 stamp
    (fsInsert r.1 dest (.linkN (theme_waybar_dir ++ [e.1])), r.2, st.2.2 ++ [e.1])

/-- `link_waybar_subdirs` (waybar.rs:193-244). The `fs::read_dir` listing of
the source bundle is the explicit `entries` parameter (name and probed kind,
in directory-iteration order). After the loop the manifest file is rewritten
with the linked names, or removed when nothing was linked. -/
def link_waybar_subdirs (fs : Fs)
    (theme_waybar_dir waybar_dir waybar_themes_dir : FsPath)
    (entries : List (String × SrcKind)) (backup_dir : Option FsPath)
    (stamp : Nat) : Fs × Option FsPath :=
  let res := entries.foldl
    (linkStep theme_waybar_dir waybar_dir waybar_themes_dir stamp)
    (fs, backup_dir, [])
  let manifest_path := waybar_dir ++ [WAYBAR_LINKS_FILE]
  if res.2.2.isEmpty then (fsErase res.1 manifest_path, res.2.1)
  else (fsInsert res.1 manifest_path (.fileN (manifestText res.2.2)), res.2.1)

theorem cleanupStep_find_cases (wd : FsPath) (acc : Fs) (n : String) (q : FsPath) :
    fsFind (cleanupStep wd acc n) q = fsFind acc q ∨
      fsFind (cleanupStep wd acc n) q = none := by
  unfold cleanupStep
  cases hf : fsFind acc (wd ++ [n]) with
  | none => left; rfl
  | some m =>
    cases m with
    | fileN c => left; rfl
    | dirN => left; rfl
    | linkN t =>
      by_cases hq : q = wd ++ [n]
      · right
        rw [hq]
        exact fsFind_erase_self _ _
      · left
        exact fsFind_erase_ne _ _ _ hq

theorem cleanup_fold_none (wd : FsPath) (names : List String) (acc : Fs)
    (p : FsPath) (h : fsFind acc p = none) :
    fsFind (names.foldl (cleanupStep wd) acc) p = none := by
  induction names generalizing acc with
  | nil => exact h
  | cons hd tl ih =>
    rw [List.foldl_cons]
    apply ih
    rcases cleanupStep_find_cases wd acc hd p with hc | hc
    · rw [hc]; exact h
    · exact hc

theorem cleanup_fold_removes (wd : FsPath) (names : List String) (acc : Fs)
    (m : String) (hm : m ∈ names)
    (h : fsFind acc (wd ++ [m]) = none ∨
      ∃ t, fsFind acc (wd ++ [m]) = some (.linkN t)) :
    fsFind (names.foldl (cleanupStep wd) acc) (wd ++ [m]) = none := by
  induction names generalizing acc with
  | nil => cases hm
  | cons hd tl ih =>
    rw [List.foldl_cons]
    rcases List.mem_cons.mp hm with hme | hmt
    · subst hme
      have hstep : fsFind (cleanupStep wd acc m) (wd ++ [m]) = none := by
        unfold cleanupStep
        rcases h with h | ⟨t, h⟩
        · rw [h]; exact h
        · rw [h]; exact fsFind_erase_self _ _
      exact cleanup_fold_none wd tl _ _ hstep
    · apply ih _ hmt
      rcases cleanupStep_find_cases wd acc hd (wd ++ [m]) with hc | hc
      · rw [hc]; exact h
      · left; exact hc

/-- C4: cleanup of the managed-link manifest. General part: whenever the
manifest file from the previous apply is readable, every name it lists whose
path under the waybar config directory is still (lstat) a symlink is gone
after `cleanup_waybar_links`, and so is the manifest itself. Concrete part:
applying a bundle with subdirectories `{assets, scripts}` in symlink mode and
then a bundle with `{scripts, fonts}` leaves exactly the symlinks `scripts`
and `fonts` (pointing into the second bundle) at the destination, no `assets`
entry, and a manifest listing exactly `scripts` and `fonts`. -/
theorem c4_waybar_manifest_cleanup :
    (∀ (fs : Fs) (wd : FsPath) (content : String) (name : String) (t : FsPath),
      statFileContent fs (wd ++ [WAYBAR_LINKS_FILE]) = some content →
      name ∈ parseManifest content →
      fsFind fs (wd ++ [name]) = some (.linkN t) →
      fsFind (cleanup_waybar_links fs wd) (wd ++ [name]) = none) ∧
    (∀ (fs : Fs) (wd : FsPath) (content : String),
      statFileContent fs (wd ++ [WAYBAR_LINKS_FILE]) = some content →
      fsFind (cleanup_waybar_links fs wd) (wd ++ [WAYBAR_LINKS_FILE]) = none) ∧
    (let wd : FsPath := ["cfg", "waybar"]
     let themes : FsPath := ["cfg", "waybar", "themes"]
     let tA : FsPath := ["themes", "alpha", "waybar-theme"]
     let tB : FsPath := ["themes", "beta", "waybar-theme"]
     let s1 := link_waybar_subdirs (cleanup_waybar_links [] wd) tA wd themes
       [("assets", .dirK), ("scripts", .dirK)] none 1
     let s2 := link_waybar_subdirs (cleanup_waybar_links s1.1 wd) tB wd themes
       [("scripts", .dirK), ("fonts", .dirK)] none 2
     fsFind s2.1 (wd ++ ["assets"]) = none ∧
     fsFind s2.1 (wd ++ ["scripts"]) =
       some (.linkN (tB ++ ["scripts"])) ∧
     fsFind s2.1 (wd ++ ["fonts"]) =
       some (.linkN (tB ++ ["fonts"])) ∧
     statFileContent s2.1 (wd ++ [WAYBAR_LINKS_FILE]) =
       some "scripts\nfonts\n") := by
  refine ⟨?_, ?_, ?_⟩
  · intro fs wd content name t hmani hmem hlink
    unfold cleanup_waybar_links
    rw [hmani]
    by_cases hq : wd ++ [name] = wd ++ [WAYBAR_LINKS_FILE]
    · rw [hq]
      exact fsFind_erase_self _ _
    · rw [fsFind_erase_ne _ _ _ hq]
      exact cleanup_fold_removes wd (parseManifest content) fs name hmem
        (Or.inr ⟨t, hlink⟩)
  · intro fs wd content hmani
    unfold cleanup_waybar_links
    rw [hmani]
    exact fsFind_erase_self _ _
  · refine ⟨?_, ?_, ?_, ?_⟩ <;> decide

/-- Witness for C4: the general cleanup clause applied to the concrete state
left by the first apply of the scenario — the `assets` link named in the
manifest is gone after cleanup. -/
theorem c4_waybar_manifest_cleanup_witness :
    fsFind
      (cleanup_waybar_links
        (link_waybar_subdirs (cleanup_waybar_links [] ["cfg", "waybar"])
          ["themes", "alpha", "waybar-theme"] ["cfg", "waybar"]
          ["cfg", "waybar", "themes"]
          [("assets", .dirK), ("scripts", .dirK)] none 1).1
        ["cfg", "waybar"])
      (["cfg", "waybar"] ++ ["assets"]) = none :=
  c4_waybar_manifest_cleanup.1
    (link_waybar_subdirs (cleanup_waybar_links [] ["cfg", "waybar"])
      ["themes", "alpha", "waybar-theme"] ["cfg", "waybar"]
      ["cfg", "waybar", "themes"]
      [("assets", .dirK), ("scripts", .dirK)] none 1).1
    ["cfg", "waybar"] "assets\nscripts\n" "assets"
    (["themes", "alpha", "waybar-theme"] ++ ["assets"])
    (by decide) (by decide) (by decide)

/-! ## The waybar applier (src/rust/src/waybar.rs:12-161) -/

/-- `WaybarMode` (theme_ops.rs:15-20). -/
inductive WaybarMode where
  | None
  | Auto
  | Named
deriving DecidableEq, Repr

/-- `RestartCommand` (omarchy.rs:12-16). -/
structure RestartCommand where
  cmd : String
  args : List String
deriving DecidableEq, Repr

/-- `RestartAction` as the waybar applier constructs it (waybar.rs:103-106
and 157-160): the variant carrying an external restart command. (The enum's
declaration accompanies `reload_components` outside these sources; only the
`Command` variant is constructed by the engine.) -/
inductive RestartAction where
  | Command (c : RestartCommand)
deriving DecidableEq, Repr

/-- The waybar-relevant fields of `CommandContext`/`ResolvedConfig`
(theme_ops.rs:30-39, config.rs:79-85). `waybar_restart_cmd` is the
configurable external restart helper (config.rs:82, set via
`[waybar] restart_cmd` or `WAYBAR_RESTART_CMD`, config.rs:221-222 and
346-348); it is carried here because the configuration defines it, and —
materially for claim C8 — `prepare_waybar` never reads it. -/
structure WaybarCtx where
  waybar_mode : WaybarMode
  waybar_name : Option String
  quiet : Bool
  waybar_dir : FsPath
  waybar_themes_dir : FsPath
  waybar_apply_mode : String
  waybar_restart_cmd : Option String
deriving DecidableEq, Repr

/-- `replace_with_symlink` (waybar.rs:312-323): back up / unlink the
destination, then symlink it at the source. -/
def replace_with_symlink (fs : Fs) (dest source : FsPath) (name : String)
    (waybar_themes_dir : FsPath) (backup_dir : Option FsPath) (stamp : Nat) :
    Fs × Option FsPath :=
  let r := replace_existing_path fs dest name waybar_themes_dir backup_dir stamp
  (fsInsert r.1 dest (.linkN source), r.2)

/-- `apply_symlink` (waybar.rs:109-161): ensure the waybar config dir,
replace-and-link `config.jsonc` and `style.css`, link the bundle's
subdirectories, and return the fixed waybar restart command. -/
def apply_symlink (fs : Fs) (ctx : WaybarCtx) (config_path style_path : FsPath)
    (srcEntries : List (String × SrcKind)) (stamp : Nat) :
    Fs × Option RestartAction :=
  let fs0 := createDirAll fs ctx.waybar_dir
  let theme_waybar_dir := config_path.dropLast
  let dest_config := ctx.waybar_dir ++ ["config.jsonc"]
  let dest_style := ctx.waybar_dir ++ ["style.css"]
  let r1 := replace_with_symlink fs0 dest_config config_path "config.jsonc"
    ctx.waybar_themes_dir none stamp
  let r2 := replace_with_symlink r1.1 dest_style style_path "style.css"
    ctx.waybar_themes_dir r1.2 stamp
  let r3 := link_waybar_subdirs r2.1 theme_waybar_dir ctx.waybar_dir
    ctx.waybar_themes_dir srcEntries r2.2 stamp
  (r3.1, some (.Command ⟨"omarchy-restart-waybar", []⟩))

/-- One iteration of `copy_waybar_subdirs` (waybar.rs:253-279): skip marker
files and non-directories; otherwise back up / unlink the destination and
copy the subtree (`copy_dir_recursive`). The flat model records the copied
subtree's root as a directory node (its inner layout is not tracked; no
claim inspects it). -/
def copyStep (waybar_dir waybar_themes_dir : FsPath) (stamp : Nat)
    (st : Fs × Option FsPath) (e : String × SrcKind) : Fs × Option FsPath :=
  if e.1 = "config.jsonc" ∨ e.1 = "style.css" then st
  else if srcIsDirLike e.2 = false then st
  else
    let dest := waybar_dir ++ [e.1]
    let r := replace_existing_path st.1 dest e.1 waybar_themes_dir st.2 stamp
    (fsInsert r.1 dest .dirN, r.2)

/-- `copy_waybar_subdirs` (waybar.rs:246-281). -/
def copy_waybar_subdirs (fs : Fs) (waybar_dir waybar_themes_dir : FsPath)
    (entries : List (String × SrcKind)) (backup_dir : Option FsPath)
    (stamp : Nat) : Fs × Option FsPath :=
  entries.foldl (copyStep waybar_dir waybar_themes_dir stamp) (fs, backup_dir)

/-- `apply_copy` (waybar.rs:54-107): ensure the waybar config dir, back up /
unlink both destinations, copy the two marker files byte-for-byte
(`fs::copy`: the destination becomes a regular file with the source's
content), copy the subdirectories, and return the fixed restart command. -/
def apply_copy (fs : Fs) (ctx : WaybarCtx) (config_path style_path : FsPath)
    (srcEntries : List (String × SrcKind)) (stamp : Nat) :
    Fs × Option RestartAction :=
  let fs0 := createDirAll fs ctx.waybar_dir
  let dest_config := ctx.waybar_dir ++ ["config.jsonc"]
  let dest_style := ctx.waybar_dir ++ ["style.css"]
  let r1 := replace_existing_path fs0 dest_config "config.jsonc"
    ctx.waybar_themes_dir none stamp
  let r2 := replace_existing_path r1.1 dest_style "style.css"
    ctx.waybar_themes_dir r1.2 stamp
  let fs3 := fsInsert r2.1 dest_config
    (.fileN ((statFileContent r2.1 config_path).getD ""))
  let fs4 := fsInsert fs3 dest_style
    (.fileN ((statFileContent fs3 style_path).getD ""))
  let r5 := copy_waybar_subdirs fs4 ctx.waybar_dir ctx.waybar_themes_dir
    srcEntries r2.2 stamp
  (r5.1, some (.Command ⟨"omarchy-restart-waybar", []⟩))

/-- Warning emission: `eprintln!` unless `quiet` (collected as a list of the
lines printed). -/
def warnIf (quiet : Bool) (msg : String) : List String :=
  if quiet then [] else [msg]

/-- The source-bundle directory `prepare_waybar` resolves from the mode
(waybar.rs:13-20): `None` and `Named`-without-a-name short-circuit to no
work. -/
def waybar_selected_source (ctx : WaybarCtx) (theme_dir : FsPath) :
    Option FsPath :=
  match ctx.waybar_mode with
  | .None => none
  | .Auto => some (theme_dir ++ ["waybar-theme"])
  | .Named => ctx.waybar_name.map (fun n => ctx.waybar_themes_dir ++ [n])

/-- The body of `prepare_waybar` after mode resolution (waybar.rs:22-52):
validate the bundle (directory present, both marker files present — warn
unless quiet and no-op otherwise), clean up the previous manifest, then
dispatch on the apply mode (`"copy"` copies; anything else symlinks). -/
def prepare_waybar_go (fs : Fs) (ctx : WaybarCtx) (waybar_theme_src : FsPath)
    (srcEntries : List (String × SrcKind)) (stamp : Nat) :
    Fs × Option RestartAction × List String :=
  if isDirFs fs waybar_theme_src = false then
    (fs, none, warnIf ctx.quiet
      ("theme-manager: waybar theme directory not found: " ++
        pathStr waybar_theme_src))
  else
    let config_path := waybar_theme_src ++ ["config.jsonc"]
    let style_path := waybar_theme_src ++ ["style.css"]
    if isFileFs fs config_path = false ∨ isFileFs fs style_path = false then
      (fs, none, warnIf ctx.quiet
        ("theme-manager: waybar theme missing config.jsonc or style.css in " ++
          pathStr waybar_theme_src))
    else
      let fs1 := cleanup_waybar_links fs ctx.waybar_dir
      if ctx.waybar_apply_mode = "copy" then
        let r := apply_copy fs1 ctx config_path style_path srcEntries stamp
        (r.1, r.2, [])
      else
        let r := apply_symlink fs1 ctx config_path style_path srcEntries stamp
        (r.1, r.2, [])

/-- `prepare_waybar` (waybar.rs:12-52). The `fs::read_dir` listing of the
source bundle (used by the subdir loops) is the explicit `srcEntries`
parameter. -/
def prepare_waybar (fs : Fs) (ctx : WaybarCtx) (theme_dir : FsPath)
    (srcEntries : List (String × SrcKind)) (stamp : Nat) :
    Fs × Option RestartAction × List String :=
  match ctx.waybar_mode with
  | .None => (fs, none, [])
  | .Auto =>
    prepare_waybar_go fs ctx (theme_dir ++ ["waybar-theme"]) srcEntries stamp
  | .Named =>
    match ctx.waybar_name with
    | some name =>
      prepare_waybar_go fs ctx (ctx.waybar_themes_dir ++ [name]) srcEntries stamp
    | none => (fs, none, [])

theorem prepare_waybar_eq_go (fs : Fs) (ctx : WaybarCtx) (theme_dir : FsPath)
    (srcEntries : List (String × SrcKind)) (stamp : Nat) (src : FsPath)
    (h : waybar_selected_source ctx theme_dir = some src) :
    prepare_waybar fs ctx theme_dir srcEntries stamp =
      prepare_waybar_go fs ctx src srcEntries stamp := by
  unfold waybar_selected_source at h
  cases hm : ctx.waybar_mode with
  | None => rw [hm] at h; simp at h
  | Auto =>
    rw [hm] at h
    simp only [Option.some.injEq] at h
    simp only [prepare_waybar, hm]
    rw [h]
  | Named =>
    rw [hm] at h
    cases hn : ctx.waybar_name with
    | none => rw [hn] at h; simp at h
    | some n =>
      rw [hn] at h
      simp only [Option.map_some', Option.some.injEq] at h
      simp only [prepare_waybar, hm, hn]
      rw [h]

/-! ## Walker and hyprlock applier validation
(src/rust/src/walker.rs:13-68, src/rust/src/hyprlock.rs:27-75) -/

/-- `WalkerMode`, as matched by walker.rs:16-29 together with
`ctx.walker_name`. Modelled from the spec: the declaration `WalkerMode` that
walker.rs imports from `crate::theme_ops` is not among these sources; §3 of
the spec gives the selection mode as the tagged variant `{None, Auto,
Named(name)}`, with the name carried separately in the context, exactly as
the use sites consume it. -/
inductive WalkerMode where
  | None
  | Auto
  | Named
deriving DecidableEq, Repr

/-- `HyprlockMode`, as matched by hyprlock.rs:30-43. Modelled from the spec,
for the same reason as `WalkerMode`. -/
inductive HyprlockMode where
  | None
  | Auto
  | Named
deriving DecidableEq, Repr

/-- The control-flow outcome of `prepare_walker` after
`ensure_omarchy_default_theme_link` (walker.rs:16-67): which early return, or
which apply path, the function takes. The no-op outcomes carry the warning
that is printed (suppressed by `quiet`); `prepare_walker` returns
`Result<()>`, so no outcome carries a restart action. The mutations of the
two apply paths are beyond the validation these claims cite and are not
modelled. -/
inductive WalkerPrep where
  | skipped
  | noopMissingDir (warning : Option String)
  | noopMissingStyle (warning : Option String)
  | namedUpdateConfig (name : String)
  | autoApply (apply_mode : String)
deriving DecidableEq, Repr

/-- The source directory (and named-theme name, when any) `prepare_walker`
resolves from the mode (walker.rs:16-29). -/
def walker_selected_source (walker_mode : WalkerMode)
    (walker_name : Option String) (theme_dir walker_themes_dir : FsPath) :
    Option (FsPath × Option String) :=
  match walker_mode with
  | .None => none
  | .Auto => some (theme_dir ++ ["walker-theme"], none)
  | .Named =>
    match walker_name with
    | some n => some (walker_themes_dir ++ [n], some n)
    | none => none

/-- `prepare_walker` (walker.rs:16-67), from mode resolution onward:
validate (directory present, `style.css` present — warn unless quiet and
no-op otherwise), then either rewrite the walker config for a named theme or
apply the bundled theme in the configured mode. -/
def prepare_walker_outcome (fs : Fs) (walker_mode : WalkerMode)
    (walker_name : Option String) (theme_dir walker_themes_dir : FsPath)
    (apply_mode : String) (quiet : Bool) : WalkerPrep :=
  match walker_selected_source walker_mode walker_name theme_dir
      walker_themes_dir with
  | none => .skipped
  | some sel =>
    if isDirFs fs sel.1 = false then
      .noopMissingDir (if quiet then none else
        some ("theme-manager: walker theme directory not found: " ++
          pathStr sel.1))
    else if isFileFs fs (sel.1 ++ ["style.css"]) = false then
      .noopMissingStyle (if quiet then none else
        some ("theme-manager: walker theme missing style.css in " ++
          pathStr sel.1))
    else
      match sel.2 with
      | some n => .namedUpdateConfig n
      | none => .autoApply apply_mode

/-- The control-flow outcome of `prepare_hyprlock` after
`ensure_omarchy_default_theme_link` (hyprlock.rs:30-75), on the same footing
as `WalkerPrep`. -/
inductive HyprlockPrep where
  | skipped
  | omarchyDefaultFlow
  | noopMissingDir (warning : Option String)
  | noopMissingConf (warning : Option String)
  | applyConf (apply_mode : String)
deriving DecidableEq, Repr

/-- The source directory `prepare_hyprlock` resolves from the mode
(hyprlock.rs:36-43). -/
def hyprlock_selected_source (hyprlock_mode : HyprlockMode)
    (hyprlock_name : Option String) (theme_dir hyprlock_themes_dir : FsPath) :
    Option FsPath :=
  match hyprlock_mode with
  | .None => none
  | .Auto => some (theme_dir ++ ["hyprlock-theme"])
  | .Named => hyprlock_name.map (fun n => hyprlock_themes_dir ++ [n])

/-- `prepare_hyprlock` (hyprlock.rs:27-75), from the mode check onward: the
`Named "omarchy-default"` combination takes its own flow (hyprlock.rs:30-34);
otherwise validate (directory present, `hyprlock.conf` present — warn unless
quiet and no-op otherwise) and apply in the configured mode. -/
def prepare_hyprlock_outcome (fs : Fs) (hyprlock_mode : HyprlockMode)
    (hyprlock_name : Option String) (theme_dir hyprlock_themes_dir : FsPath)
    (apply_mode : String) (quiet : Bool) : HyprlockPrep :=
  if hyprlock_mode = .Named ∧ hyprlock_name = some "omarchy-default" then
    .omarchyDefaultFlow
  else
    match hyprlock_selected_source hyprlock_mode hyprlock_name theme_dir
        hyprlock_themes_dir with
    | none => .skipped
    | some dir =>
      if isDirFs fs dir = false then
        .noopMissingDir (if quiet then none else
          some ("theme-manager: hyprlock theme directory not found: " ++
            pathStr dir))
      else if isFileFs fs (dir ++ ["hyprlock.conf"]) = false then
        .noopMissingConf (if quiet then none else
          some ("theme-manager: hyprlock theme missing hyprlock.conf in " ++
            pathStr dir))
      else .applyConf apply_mode

/-- C7: missing-asset tolerance of the per-subsystem appliers. Waybar: when
the resolved bundle directory is missing, or present but lacking
`config.jsonc` or `style.css`, `prepare_waybar` returns success with no
restart action, prints exactly one warning unless quiet, and leaves the
filesystem untouched. Walker and hyprlock: under the same conditions (walker
marker: `style.css`; hyprlock marker: `hyprlock.conf`) the applier's outcome
is the corresponding warn-and-return-`Ok` no-op, with the warning suppressed
exactly when quiet — never an error. -/
theorem c7_missing_asset_tolerance :
    (∀ (fs : Fs) (ctx : WaybarCtx) (theme_dir : FsPath)
        (srcEntries : List (String × SrcKind)) (stamp : Nat) (src : FsPath),
      waybar_selected_source ctx theme_dir = some src →
      isDirFs fs src = false →
      prepare_waybar fs ctx theme_dir srcEntries stamp =
        (fs, none, warnIf ctx.quiet
          ("theme-manager: waybar theme directory not found: " ++
            pathStr src))) ∧
    (∀ (fs : Fs) (ctx : WaybarCtx) (theme_dir : FsPath)
        (srcEntries : List (String × SrcKind)) (stamp : Nat) (src : FsPath),
      waybar_selected_source ctx theme_dir = some src →
      isDirFs fs src = true →
      isFileFs fs (src ++ ["config.jsonc"]) = false ∨
        isFileFs fs (src ++ ["style.css"]) = false →
      prepare_waybar fs ctx theme_dir srcEntries stamp =
        (fs, none, warnIf ctx.quiet
          ("theme-manager: waybar theme missing config.jsonc or style.css in " ++
            pathStr src))) ∧
    (∀ (fs : Fs) (mode : WalkerMode) (name : Option String)
        (theme_dir themes_dir : FsPath) (apply_mode : String) (quiet : Bool)
        (sel : FsPath × Option String),
      walker_selected_source mode name theme_dir themes_dir = some sel →
      isDirFs fs sel.1 = false →
      prepare_walker_outcome fs mode name theme_dir themes_dir apply_mode quiet =
        .noopMissingDir (if quiet then none else
          some ("theme-manager: walker theme directory not found: " ++
            pathStr sel.1))) ∧
    (∀ (fs : Fs) (mode : WalkerMode) (name : Option String)
        (theme_dir themes_dir : FsPath) (apply_mode : String) (quiet : Bool)
        (sel : FsPath × Option String),
      walker_selected_source mode name theme_dir themes_dir = some sel →
      isDirFs fs sel.1 = true →
      isFileFs fs (sel.1 ++ ["style.css"]) = false →
      prepare_walker_outcome fs mode name theme_dir themes_dir apply_mode quiet =
        .noopMissingStyle (if quiet then none else
          some ("theme-manager: walker theme missing style.css in " ++
            pathStr sel.1))) ∧
    (∀ (fs : Fs) (mode : HyprlockMode) (name : Option String)
        (theme_dir themes_dir : FsPath) (apply_mode : String) (quiet : Bool)
        (dir : FsPath),
      ¬(mode = .Named ∧ name = some "omarchy-default") →
      hyprlock_selected_source mode name theme_dir themes_dir = some dir →
      isDirFs fs dir = false →
      prepare_hyprlock_outcome fs mode name theme_dir themes_dir apply_mode quiet =
        .noopMissingDir (if quiet then none else
          some ("theme-manager: hyprlock theme directory not found: " ++
            pathStr dir))) ∧
    (∀ (fs : Fs) (mode : HyprlockMode) (name : Option String)
        (theme_dir themes_dir : FsPath) (apply_mode : String) (quiet : Bool)
        (dir : FsPath),
      ¬(mode = .Named ∧ name = some "omarchy-default") →
      hyprlock_selected_source mode name theme_dir themes_dir = some dir →
      isDirFs fs dir = true →
      isFileFs fs (dir ++ ["hyprlock.conf"]) = false →
      prepare_hyprlock_outcome fs mode name theme_dir themes_dir apply_mode quiet =
        .noopMissingConf (if quiet then none else
          some ("theme-manager: hyprlock theme missing hyprlock.conf in " ++
            pathStr dir))) := by
  refine ⟨?_, ?_, ?_, ?_, ?_, ?_⟩
  · intro fs ctx theme_dir srcEntries stamp src hsel hdir
    rw [prepare_waybar_eq_go fs ctx theme_dir srcEntries stamp src hsel]
    unfold prepare_waybar_go
    rw [hdir]
    simp
  · intro fs ctx theme_dir srcEntries stamp src hsel hdir hmarker
    rw [prepare_waybar_eq_go fs ctx theme_dir srcEntries stamp src hsel]
    unfold prepare_waybar_go
    rw [hdir]
    simp only [Bool.true_eq_false, if_false, ite_false]
    rcases hmarker with hm | hm <;> simp [hm]
  · intro fs mode name theme_dir themes_dir apply_mode quiet sel hsel hdir
    unfold prepare_walker_outcome
    rw [hsel]
    dsimp only
    rw [hdir]
    simp
  · intro fs mode name theme_dir themes_dir apply_mode quiet sel hsel hdir hstyle
    unfold prepare_walker_outcome
    rw [hsel]
    dsimp only
    rw [hdir, hstyle]
    simp
  · intro fs mode name theme_dir themes_dir apply_mode quiet dir hnd hsel hdir
    unfold prepare_hyprlock_outcome
    rw [if_neg hnd, hsel]
    dsimp only
    rw [hdir]
    simp
  · intro fs mode name theme_dir themes_dir apply_mode quiet dir hnd hsel hdir hconf
    unfold prepare_hyprlock_outcome
    rw [if_neg hnd, hsel]
    dsimp only
    rw [hdir, hconf]
    simp

/-- Witness for C7: the waybar clause at a concrete empty filesystem (the
Auto-mode bundle directory does not exist), non-quiet. -/
theorem c7_missing_asset_tolerance_witness :
    prepare_waybar []
      ⟨WaybarMode.Auto, none, false, ["cfg", "waybar"],
        ["cfg", "waybar", "themes"], "symlink", none⟩
      ["cur", "theme"] [] 5 =
      ([], none,
        ["theme-manager: waybar theme directory not found: " ++
          pathStr (["cur", "theme"] ++ ["waybar-theme"])]) :=
  c7_missing_asset_tolerance.1 []
    ⟨WaybarMode.Auto, none, false, ["cfg", "waybar"],
      ["cfg", "waybar", "themes"], "symlink", none⟩
    ["cur", "theme"] [] 5 (["cur", "theme"] ++ ["waybar-theme"])
    (by rfl) (by rfl)

theorem prepare_waybar_go_apply_mode (fs : Fs) (m : WaybarMode)
    (nm : Option String) (q : Bool) (wd wtd : FsPath) (am : String)
    (rc : Option String) (src : FsPath) (e : List (String × SrcKind))
    (st : Nat) (h : am ≠ "copy") :
    prepare_waybar_go fs ⟨m, nm, q, wd, wtd, am, rc⟩ src e st =
      prepare_waybar_go fs ⟨m, nm, q, wd, wtd, "symlink", rc⟩ src e st := by
  unfold prepare_waybar_go
  by_cases h1 : isDirFs fs src = false
  · rw [if_pos h1, if_pos h1]
  · rw [if_neg h1, if_neg h1]
    by_cases h2 : isFileFs fs (src ++ ["config.jsonc"]) = false ∨
        isFileFs fs (src ++ ["style.css"]) = false
    · rw [if_pos h2, if_pos h2]
    · rw [if_neg h2, if_neg h2]
      rw [if_neg h, if_neg (by decide : ¬("symlink" = "copy"))]
      rfl

/-- C8 counterexample: an input the original claim's own fallback clause
does not license. A restart helper *is* configured
(`waybar_restart_cmd = some "my-waybar-helper"` — the knob of config.rs:82,
settable via `[waybar] restart_cmd` or `WAYBAR_RESTART_CMD`), and the
selected style file's text contains no `@import` and no `../` at all, so no
relative-import marker can be present; the claim therefore predicts that in
`"exec"` mode the applier writes no destination files and delegates to the
helper, passing the config and style paths as arguments. Instead
`prepare_waybar` writes destination files — both `config.jsonc` and
`style.css` become symlinks into the bundle, the filesystem changes — and
returns the fixed argument-less `omarchy-restart-waybar` command: not the
configured helper, no paths passed, identical to the `"symlink"` run.
waybar.rs:46-51 dispatches every mode other than `"copy"` straight to
`apply_symlink` and never consults `waybar_restart_cmd` or the style
text. -/
theorem c8_waybar_exec_mode_counterexample :
    (let styleText : String := "window { background: black; }"
     let fs : Fs := [(["cur", "waybar-theme"], FsNode.dirN),
       (["cur", "waybar-theme", "config.jsonc"], FsNode.fileN "cfg"),
       (["cur", "waybar-theme", "style.css"], FsNode.fileN styleText)]
     let ctx : WaybarCtx := ⟨WaybarMode.Auto, none, true, ["cfg", "waybar"],
       ["cfg", "waybar", "themes"], "exec", some "my-waybar-helper"⟩
     let r := prepare_waybar fs ctx ["cur"] [] 3
     ctx.waybar_restart_cmd = some "my-waybar-helper" ∧
     statFileContent fs (["cur", "waybar-theme"] ++ ["style.css"]) =
       some styleText ∧
     strContains styleText "@import" = false ∧
     strContains styleText "../" = false ∧
     fsFind r.1 (["cfg", "waybar"] ++ ["config.jsonc"]) =
       some (FsNode.linkN (["cur", "waybar-theme"] ++ ["config.jsonc"])) ∧
     fsFind r.1 (["cfg", "waybar"] ++ ["style.css"]) =
       some (FsNode.linkN (["cur", "waybar-theme"] ++ ["style.css"])) ∧
     r.1 ≠ fs ∧
     r.2.1 = some (RestartAction.Command ⟨"omarchy-restart-waybar", []⟩) ∧
     r.2.1 ≠ some (RestartAction.Command ⟨"my-waybar-helper",
       [pathStr (["cur", "waybar-theme"] ++ ["config.jsonc"]),
        pathStr (["cur", "waybar-theme"] ++ ["style.css"])]⟩) ∧
     r = prepare_waybar fs ⟨WaybarMode.Auto, none, true, ["cfg", "waybar"],
       ["cfg", "waybar", "themes"], "symlink", some "my-waybar-helper"⟩
       ["cur"] [] 3) := by
  refine ⟨?_, ?_, ?_, ?_, ?_, ?_, ?_, ?_, ?_, ?_⟩ <;> decide

/-- C8 (amended): for every apply-mode string other than `"copy"` —
including `"exec"`, and regardless of whether a restart helper is configured
in `waybar_restart_cmd` and of the style file's text — `prepare_waybar`
behaves exactly as in `"symlink"` mode: it writes symlinks at the
destination and returns the fixed `omarchy-restart-waybar` restart command;
no exec delegation to the configured helper, and no relative-import
detection, exists in the code. -/
theorem c8_waybar_exec_falls_back_to_symlink (fs : Fs) (ctx : WaybarCtx)
    (theme_dir : FsPath) (srcEntries : List (String × SrcKind)) (stamp : Nat)
    (h : ctx.waybar_apply_mode ≠ "copy") :
    prepare_waybar fs ctx theme_dir srcEntries stamp =
      prepare_waybar fs
        { ctx with waybar_apply_mode := "symlink" } theme_dir srcEntries
        stamp := by
  obtain ⟨m, nm, q, wd, wtd, am, rc⟩ := ctx
  simp only [WaybarCtx.mk.injEq] at *
  cases m with
  | None => rfl
  | Auto =>
    simp only [prepare_waybar]
    exact prepare_waybar_go_apply_mode fs .Auto nm q wd wtd am rc _ _ _ h
  | Named =>
    cases nm with
    | none => rfl
    | some n =>
      simp only [prepare_waybar]
      exact prepare_waybar_go_apply_mode fs .Named (some n) q wd wtd am rc _ _ _ h

/-- Witness for C8's amended theorem: at the concrete `"exec"` configuration
it coincides with the `"symlink"` run. -/
theorem c8_waybar_exec_falls_back_to_symlink_witness :
    prepare_waybar [] ⟨WaybarMode.Auto, none, true, ["cfg", "waybar"],
        ["cfg", "waybar", "themes"], "exec", some "my-waybar-helper"⟩
        ["cur"] [] 3 =
      prepare_waybar [] ⟨WaybarMode.Auto, none, true, ["cfg", "waybar"],
        ["cfg", "waybar", "themes"], "symlink", some "my-waybar-helper"⟩
        ["cur"] [] 3 :=
  c8_waybar_exec_falls_back_to_symlink [] ⟨WaybarMode.Auto, none, true,
    ["cfg", "waybar"], ["cfg", "waybar", "themes"], "exec",
    some "my-waybar-helper"⟩ ["cur"] [] 3 (by decide)

/-! ## `current_theme_name` (src/rust/src/paths.rs:37-91) -/

/-- `resolve_link_target` (paths.rs:37-49): for a symlink, its read target
(the model stores link targets as absolute paths, so the source's
relative-join branch is subsumed); for anything else, `canonicalize`, which
on the already-absolute paths of the model is the identity. -/
def resolve_link_target (fs : Fs) (link_path : FsPath) : FsPath :=
  match fsFind fs link_path with
  | some (.linkN t) => t
  | _ => link_path

/-- `current_theme_name` (paths.rs:51-91): compute the file name of the
symlink's resolved target (when the link is a symlink); if the sidecar
`theme.name` next to the link is a readable file with non-empty trimmed
content, return the target name when it exists and differs, otherwise the
sidecar name; with no usable sidecar, fall back to the target name; with
neither, a still-existing non-symlink path contributes its own file name
(except the name `theme`, which yields `None`). -/
def current_theme_name (fs : Fs) (current_link : FsPath) : Option String :=
  let link_target_name : Option String :=
    if isSymlinkFs fs current_link then
      (resolve_link_target fs current_link).getLast?
    else none
  let from_sidecar : Option String :=
    if current_link = [] then none
    else
      match statFileContent fs (current_link.dropLast ++ ["theme.name"]) with
      | some content =>
        let name : String := ⟨trimChars content.data⟩
        if name ≠ "" then
          match link_target_name with
          | some target_name =>
            if target_name ≠ name then some target_name else some name
          | none => some name
        else none
      | none => none
  match from_sidecar with
  | some r => some r
  | none =>
    match link_target_name with
    | some t => some t
    | none =>
      if pathExists fs current_link then
        match current_link.getLast? with
        | some name => if name = "theme" then none else some name
        | none => none
      else none

/-- C9 counterexample: with both a non-empty sidecar (`foo`) and a resolvable
current-theme symlink whose target's file name is `bar` — and the two
differing — `current_theme_name` returns the symlink target's name `bar`,
not the sidecar value, refuting the claimed sidecar precedence
(paths.rs:66-69 returns the target name whenever it differs from the
sidecar). -/
theorem c9_current_theme_name_counterexample :
    (let fs : Fs := [
        (["home", "omarchy", "current", "theme"], FsNode.linkN ["themes", "bar"]),
        (["home", "omarchy", "current", "theme.name"], FsNode.fileN "foo"),
        (["themes", "bar"], FsNode.dirN)]
     let link : FsPath := ["home", "omarchy", "current", "theme"]
     statFileContent fs (link.dropLast ++ ["theme.name"]) = some "foo" ∧
     isSymlinkFs fs link = true ∧
     (resolve_link_target fs link).getLast? = some "bar" ∧
     current_theme_name fs link = some "bar" ∧
     current_theme_name fs link ≠ some "foo") := by
  refine ⟨?_, ?_, ?_, ?_, ?_⟩ <;> decide

/-- C9 (amended): `current_theme_name` uses the sidecar value only when no
symlink-target name is available or the target name agrees with it; when
both are available and differ, the symlink target's file name is returned
(the sidecar is overridden); when the sidecar is missing, the target name is
the fallback. -/
theorem c9_current_theme_name_precedence :
    (∀ (fs : Fs) (link : FsPath) (content : String),
      link ≠ [] →
      statFileContent fs (link.dropLast ++ ["theme.name"]) = some content →
      (⟨trimChars content.data⟩ : String) ≠ "" →
      (isSymlinkFs fs link = false →
        current_theme_name fs link = some ⟨trimChars content.data⟩) ∧
      (∀ tn, isSymlinkFs fs link = true →
        (resolve_link_target fs link).getLast? = some tn →
        current_theme_name fs link =
          some (if tn ≠ (⟨trimChars content.data⟩ : String) then tn
            else (⟨trimChars content.data⟩ : String)))) ∧
    (∀ (fs : Fs) (link : FsPath) (tn : String),
      (link = [] ∨
        statFileContent fs (link.dropLast ++ ["theme.name"]) = none) →
      isSymlinkFs fs link = true →
      (resolve_link_target fs link).getLast? = some tn →
      current_theme_name fs link = some tn) := by
  constructor
  · intro fs link content hne hsc hnem
    constructor
    · intro hsym
      simp only [current_theme_name, hsym, Bool.false_eq_true, if_false,
        ite_false, hsc, if_neg hne, hnem, ite_not]
    · intro tn hsym htn
      simp only [current_theme_name, hsym, if_true, ite_true, htn, hsc,
        if_neg hne]
      by_cases heq : tn = (⟨trimChars content.data⟩ : String)
      · simp [heq, hnem]
      · simp [heq, hnem]
  · intro fs link tn hside hsym htn
    rcases hside with hside | hside
    · subst hside
      simp only [current_theme_name, hsym, if_true, ite_true, htn]
    · simp only [current_theme_name, hsym, if_true, ite_true, htn, hside]
      by_cases hl : link = []
      · simp [hl]
      · simp [hl]

/-- Witness for C9's amended theorem: a non-symlink current-theme directory
with sidecar content `foo` yields `foo`. -/
theorem c9_current_theme_name_precedence_witness :
    current_theme_name
      [(["home", "omarchy", "current", "theme"], FsNode.dirN),
       (["home", "omarchy", "current", "theme.name"], FsNode.fileN "foo")]
      ["home", "omarchy", "current", "theme"] = some "foo" := by
  have h := (c9_current_theme_name_precedence.1
    [(["home", "omarchy", "current", "theme"], FsNode.dirN),
     (["home", "omarchy", "current", "theme.name"], FsNode.fileN "foo")]
    ["home", "omarchy", "current", "theme"] "foo"
    (by decide) (by decide) (by decide)).1 (by decide)
  exact h.trans (by decide)

/-! ## `cmd_set` validation and atomic swap
(src/rust/src/theme_ops.rs:79-139, 235-245, 350-374, 376-405) -/

/-- What the stat of a symlink's target resolves to, when it resolves. -/
inductive LinkTargetKind where
  | tfile
  | tdir
deriving DecidableEq, Repr

/-- The filesystem shape of the theme-root entry at the normalized name's
path, as `cmd_set` probes it via `is_broken_symlink` / `is_dir` /
`is_symlink` (theme_ops.rs:83-96): absent, a regular file, a directory, or a
symlink whose stat target is a file, a directory, or nothing (dangling). -/
inductive ThemeEntry where
  | absent
  | regularFile
  | directory
  | symlinkE (target : Option LinkTargetKind)
deriving DecidableEq, Repr

/-- `is_symlink` (theme_ops.rs:254-260): lstat says symlink (absent is
`false`). -/
def entry_is_symlink : ThemeEntry → Bool
  | .symlinkE _ => true
  | _ => false

/-- `is_broken_symlink` (theme_ops.rs:350-355): a symlink whose
`fs::metadata` (stat, following the link) fails. -/
def entry_is_broken_symlink : ThemeEntry → Bool
  | .symlinkE none => true
  | _ => false

/-- `theme_path.is_dir()` (stat semantics: a directory, or a symlink to a
directory). -/
def entry_is_dir : ThemeEntry → Bool
  | .directory => true
  | .symlinkE (some .tdir) => true
  | _ => false

/-- A source theme tree, as `copy_theme_dir` (theme_ops.rs:376-405) walks
it: files with contents, symlinks with their literal targets, directories
with named children. -/
inductive FsTree where
  | file (data : String)
  | link (target : String)
  | dir (entries : List (String × FsTree))
deriving Repr

/-- `copy_theme_dir` (theme_ops.rs:376-405) recreates the walked tree at the
destination: directories are created, files are copied byte-for-byte, and
embedded symlinks are recreated with their read target verbatim (never
dereferenced). -/
def copyTree : FsTree → FsTree
  | .file d => .file d
  | .link t => .link t
  | .dir es => .dir (es.attach.map (fun e => (e.1.1, copyTree e.1.2)))
decreasing_by
  rename_i es
  obtain ⟨⟨n, t⟩, hmem⟩ := e
  have := List.sizeOf_lt_of_mem hmem
  simp at this ⊢
  omega

/-- The state `cmd_set`'s swap phase manipulates: the tree (if any) living at
the current-theme path, the tree at the sibling `next-theme` staging path,
and the `theme.name` sidecar content. -/
structure ThemeState where
  currentDir : Option FsTree
  stagingDir : Option FsTree
  sidecarName : Option String

/-- `replace_theme_dir` (theme_ops.rs:235-245): remove whatever occupies the
current-theme path, then `fs::rename` the staging directory into place (so
the staging path is vacated). -/
def replace_theme_dir (s : ThemeState) : ThemeState :=
  { s with currentDir := s.stagingDir, stagingDir := none }

/-- `prepare_staging_dir` (theme_ops.rs:357-374): remove any stale staging
directory, recreate it, and `copy_theme_dir` the resolved source tree into
it. Only the staging slot changes. -/
def prepare_staging_dir (source : FsTree) (s : ThemeState) : ThemeState :=
  { s with stagingDir := some (copyTree source) }

/-- `cmd_set` (theme_ops.rs:79-139) through the swap and the sidecar write.
Parameters: `theme_root_str` — the rendered `config.theme_root_dir`;
`entry` — the filesystem shape at `theme_root.join(normalized)`; `source` —
the tree at the theme path's resolved link target; `hook_ok` — whether
`run_optional("omarchy-theme-set-templates", ..)` (omarchy.rs:84-92)
returned `Ok` (it errs exactly when the hook command exists and exits with
failure). `ensure_awww_daemon` (before the staging) is fire-and-forget and
touches no theme path; the post-swap applier/wallpaper/reload/hook steps are
downstream of everything the claims about this function cite. -/
def cmd_set_model (theme_root_str theme_name : String) (entry : ThemeEntry)
    (source : FsTree) (hook_ok : Bool) (s : ThemeState) :
    ThemeState × Option String :=
  let normalized := normalize_theme_name theme_name
  let theme_path_str := theme_root_str ++ "/" ++ normalized
  if entry_is_broken_symlink entry then
    (s, some ("theme symlink is broken: " ++ theme_path_str))
  else if entry_is_dir entry = false ∧ entry_is_symlink entry = false then
    if normalized ≠ theme_name then
      (s, some ("theme not found: " ++ normalized ++ " (from '" ++
        theme_name ++ "')"))
    else
      (s, some ("theme not found: " ++ normalized))
  else
    let s1 := prepare_staging_dir source s
    if hook_ok then
      ({ replace_theme_dir s1 with sidecarName := some normalized }, none)
    else
      (s1, some "omarchy-theme-set-templates exited with failure")

/-- C1: atomicity of the theme swap. For a theme entry that passes
validation: when the template-rendering hook step fails (after staging), the
live current-theme slot and the sidecar are exactly as before the call —
only the disposable staging slot now holds the copied tree — and `cmd_set`
returns an error. The live slot is replaced (old occupant removed, staging
renamed into place, staging vacated, sidecar written) exactly when the hook
step succeeds. -/
theorem c1_theme_swap_atomicity (root name : String) (entry : ThemeEntry)
    (source : FsTree) (s : ThemeState)
    (hnb : entry_is_broken_symlink entry = false)
    (hde : entry_is_dir entry = true ∨ entry_is_symlink entry = true) :
    ((cmd_set_model root name entry source false s).1.currentDir =
        s.currentDir ∧
      (cmd_set_model root name entry source false s).1.sidecarName =
        s.sidecarName ∧
      (cmd_set_model root name entry source false s).1.stagingDir =
        some (copyTree source) ∧
      (cmd_set_model root name entry source false s).2.isSome = true) ∧
    ((cmd_set_model root name entry source true s).1.currentDir =
        some (copyTree source) ∧
      (cmd_set_model root name entry source true s).1.stagingDir = none ∧
      (cmd_set_model root name entry source true s).1.sidecarName =
        some (normalize_theme_name name) ∧
      (cmd_set_model root name entry source true s).2 = none) := by
  have hvalid : ¬(entry_is_dir entry = false ∧ entry_is_symlink entry = false) := by
    rcases hde with hde | hde <;> simp [hde]
  simp only [cmd_set_model, hnb, Bool.false_eq_true, if_false, ite_false,
    if_neg hvalid]
  exact ⟨⟨rfl, rfl, rfl, rfl⟩, ⟨rfl, rfl, rfl, rfl⟩⟩

/-- Witness for C1: a plain directory entry, a failing hook, and a live
state holding the previous theme: the live tree and sidecar survive. -/
theorem c1_theme_swap_atomicity_witness :
    (cmd_set_model "/themes" "alpha" ThemeEntry.directory (FsTree.dir [])
        false ⟨some (FsTree.file "old"), none, some "prev"⟩).1.currentDir =
      some (FsTree.file "old") :=
  (c1_theme_swap_atomicity "/themes" "alpha" ThemeEntry.directory
    (FsTree.dir []) ⟨some (FsTree.file "old"), none, some "prev"⟩
    (by decide) (Or.inl (by decide))).1.1

/-! ## Error-text lemmas (toward claim C5) -/

theorem containsSub_nil (l : List Char) : containsSub [] l = true := by
  cases l with
  | nil => rfl
  | cons c t => simp [containsSub, List.isPrefixOf]

theorem containsSub_append_left {n a : List Char} (b : List Char)
    (h : containsSub n a = true) : containsSub n (a ++ b) = true := by
  induction a with
  | nil =>
    unfold containsSub at h
    have : n = [] := by
      cases n with
      | nil => rfl
      | cons c t => simp at h
    subst this
    exact containsSub_nil b
  | cons c t ih =>
    rw [List.cons_append]
    simp only [containsSub, Bool.or_eq_true] at h ⊢
    rcases h with h | h
    · left
      have hp : n <+: c :: t := List.isPrefixOf_iff_prefix.mp h
      have hp2 : n <+: c :: (t ++ b) := by
        rw [← List.cons_append]
        exact hp.trans (List.prefix_append _ _)
      exact List.isPrefixOf_iff_prefix.mpr hp2
    · right
      exact ih h

theorem strContains_append_left (a b sub : String)
    (h : strContains a sub = true) : strContains (a ++ b) sub = true := by
  unfold strContains at h ⊢
  rw [String.data_append]
  exact containsSub_append_left _ h

/-- The two `cmd_set` rejection messages can never coincide: their constant
prefixes already differ. -/
theorem broken_msg_ne_notfound_msg (a b : String) :
    ("theme symlink is broken: " ++ a) ≠ ("theme not found: " ++ b) := by
  intro h
  have hd : ("theme symlink is broken: " ++ a).data =
      ("theme not found: " ++ b).data := by rw [h]
  rw [String.data_append, String.data_append] at hd
  have h3 := congrArg (List.take 10) hd
  rw [List.take_append_of_le_length (by decide),
    List.take_append_of_le_length (by decide)] at h3
  exact absurd h3 (by decide)

/-- C5 counterexample: for the requested theme name `broken` (normalizing to
itself) with a genuinely absent entry, `cmd_set` fails with
`theme not found: broken` — an error that contains `not found` but *also*
contains `broken`, refuting the claim's "and not broken" clause, which
cannot hold for every requested theme name because the normalized name is
part of the message text. -/
theorem c5_notfound_contains_broken_counterexample :
    (cmd_set_model "/themes" "broken" ThemeEntry.absent (FsTree.dir []) true
        ⟨none, none, none⟩).2 = some "theme not found: broken" ∧
    strContains "theme not found: broken" "not found" = true ∧
    strContains "theme not found: broken" "broken" = true := by
  refine ⟨?_, ?_, ?_⟩ <;> decide

/-- C5 (amended): a dangling-symlink entry makes `cmd_set` fail with
`theme symlink is broken: <path>` — whose text contains `broken` — while a
genuinely absent entry makes it fail with a message of the shape
`theme not found: <...>` — whose text contains `not found`; the two message
families are always distinct (their constant prefixes differ). The original
claim's extra clause — that the absent-entry message never contains
`broken` — fails when the requested name itself contains `broken`, since
the normalized name is embedded in the message. -/
theorem c5_broken_vs_notfound_errors (root name : String) (source : FsTree)
    (hook : Bool) (s : ThemeState) :
    (∀ msg, (cmd_set_model root name (ThemeEntry.symlinkE none) source hook
          s).2 = some msg →
      msg = "theme symlink is broken: " ++
        (root ++ "/" ++ normalize_theme_name name) ∧
      strContains msg "broken" = true) ∧
    (∃ msg, (cmd_set_model root name ThemeEntry.absent source hook s).2 =
        some msg ∧
      (∃ rest, msg = "theme not found: " ++ rest) ∧
      strContains msg "not found" = true ∧
      (∀ p, msg ≠ "theme symlink is broken: " ++ p)) := by
  constructor
  · intro msg hmsg
    simp only [cmd_set_model, entry_is_broken_symlink, if_true, ite_true,
      Option.some.injEq] at hmsg
    subst hmsg
    refine ⟨rfl, ?_⟩
    exact strContains_append_left "theme symlink is broken: "
      (root ++ "/" ++ normalize_theme_name name) "broken" (by decide)
  · have habs1 : entry_is_broken_symlink ThemeEntry.absent = false := rfl
    have habs2 : entry_is_dir ThemeEntry.absent = false ∧
        entry_is_symlink ThemeEntry.absent = false := ⟨rfl, rfl⟩
    by_cases hnm : normalize_theme_name name ≠ name
    · refine ⟨"theme not found: " ++ normalize_theme_name name ++ " (from '" ++
        name ++ "')", ?_, ?_, ?_, ?_⟩
      · simp only [cmd_set_model, habs1, Bool.false_eq_true, if_false,
          ite_false, if_pos habs2, if_pos hnm]
      · refine ⟨normalize_theme_name name ++ " (from '" ++ name ++ "')", ?_⟩
        simp [String.append_assoc]
      · exact strContains_append_left _ "')" _
          (strContains_append_left _ name _
            (strContains_append_left _ " (from '" _
              (strContains_append_left "theme not found: "
                (normalize_theme_name name) "not found" (by decide))))
      · intro p hp
        rw [String.append_assoc, String.append_assoc, String.append_assoc]
          at hp
        exact broken_msg_ne_notfound_msg p _ hp.symm
    · refine ⟨"theme not found: " ++ normalize_theme_name name, ?_, ?_, ?_, ?_⟩
      · simp only [cmd_set_model, habs1, Bool.false_eq_true, if_false,
          ite_false, if_pos habs2, if_neg hnm]
      · exact ⟨normalize_theme_name name, rfl⟩
      · exact strContains_append_left "theme not found: "
          (normalize_theme_name name) "not found" (by decide)
      · intro p hp
        exact broken_msg_ne_notfound_msg p _ hp.symm

/-- Witness for C5's amended theorem: the dangling-symlink clause at a
concrete name, with the containment evaluated. -/
theorem c5_broken_vs_notfound_errors_witness :
    ("theme symlink is broken: /themes/alpha" : String) =
      "theme symlink is broken: " ++ ("/themes" ++ "/" ++
        normalize_theme_name "alpha") ∧
    strContains "theme symlink is broken: /themes/alpha" "broken" = true :=
  (c5_broken_vs_notfound_errors "/themes" "alpha" (FsTree.dir []) true
    ⟨none, none, none⟩).1 "theme symlink is broken: /themes/alpha" (by decide)

end ThemeManager
